import Mathlib

/-!
Verification of the atcoder-gui input-format pipeline.

The TypeScript source is shallowly embedded: the AST node union becomes an
inductive type, the Analyzer's loop detection / extension, the matcher
(`matchFormat`), the type inferencer (`unifyTypes`, `collapseLoops`,
`inferTypesFromInstances`), the lexer's subscript normalization and the
universal generator become total Lean functions mirroring the source
statement by statement.
-/

set_option maxRecDepth 6000

namespace AtcoderGui

/-- AST node union from `src/analyzer/types.ts`: format, item, number, binop,
loop, dots/vdots markers and statement break. -/
inductive ASTNode where
  | format (children : List ASTNode)
  | item (name : String) (indices : List ASTNode)
  | number (value : Int)
  | binop (op : String) (left right : ASTNode)
  | loop (var : String) (start stop : ASTNode) (body : List ASTNode)
  | dots
  | vdots
  | brk
deriving Repr

mutual

/-- Structural node equality, `Analyzer.areNodesEqual`: item compares name and
indices pairwise, number compares values, binop compares operator and both
sides; remaining same-type pairs fall back to full structural (JSON) equality. -/
def areNodesEqual : ASTNode → ASTNode → Bool
  | .item na ia, .item nb ib => na == nb && areNodesEqualList ia ib
  | .number a, .number b => a == b
  | .binop oa la ra, .binop ob lb rb =>
      oa == ob && areNodesEqual la lb && areNodesEqual ra rb
  | .format ca, .format cb => areNodesEqualList ca cb
  | .loop va sa ea ba, .loop vb sb eb bb =>
      va == vb && areNodesEqual sa sb && areNodesEqual ea eb && areNodesEqualList ba bb
  | .dots, .dots => true
  | .vdots, .vdots => true
  | .brk, .brk => true
  | _, _ => false
/-- Pairwise `areNodesEqual` over node lists (equal length required). -/
def areNodesEqualList : List ASTNode → List ASTNode → Bool
  | [], [] => true
  | a :: as_, b :: bs => areNodesEqual a b && areNodesEqualList as_ bs
  | _, _ => false

end

mutual

/-- Identifier collection of `Analyzer.generateLoopVar`: item names plus all
names nested in index expressions and binop operands. -/
def extractNames : ASTNode → List String
  | .item n idxs => n :: extractNamesList idxs
  | .binop _ l r => extractNames l ++ extractNames r
  | _ => []
/-- `extractNames` over a node list. -/
def extractNamesList : List ASTNode → List String
  | [] => []
  | a :: as_ => extractNames a ++ extractNamesList as_

end

/-- The identifiers in scope of a candidate loop: start and end expressions and
every left/right window item (`Analyzer.generateLoopVar`'s `used` set). -/
def usedNames (start stop : ASTNode) (left right : List ASTNode) : List String :=
  extractNames start ++ extractNames stop ++ extractNamesList left ++ extractNamesList right

/-- `Analyzer.generateLoopVar`: first of `i, j, k, l, m` not occurring in the
used set, with `i` as fallback when all five occur. -/
def generateLoopVar (start stop : ASTNode) (left right : List ASTNode) : String :=
  let used := usedNames start stop left right
  match ["i", "j", "k", "l", "m"].find? (fun c => !used.contains c) with
  | some c => c
  | none => "i"

/-- Result of `Analyzer.createLoop`: the fields of the produced Loop node. -/
structure LoopShape where
  var : String
  start : ASTNode
  stop : ASTNode
  body : List ASTNode
deriving Repr

/-- Consistency check of `Analyzer.createLoop` for window pairs beyond the
first (`k = 1 ..`): items with index lists of equal length, longer than the
chosen position `d`, and structurally equal at every position other than `d`. -/
def checkRest (d : Nat) : List ASTNode → List ASTNode → Bool
  | [], [] => true
  | .item _ li :: ls, .item _ ri :: rs =>
      li.length == ri.length && d < li.length &&
      ((li.zip ri).enum.all (fun p => p.1 == d || areNodesEqual p.2.1 p.2.2)) &&
      checkRest d ls rs
  | _, _ => false

/-- Replace the index at position `d` with a reference to the loop variable
(the body-building map of `Analyzer.createLoop`). -/
def replaceVaryingIndex (d : Nat) (lv : String) : ASTNode → ASTNode
  | .item n idxs => .item n (idxs.set d (.item lv []))
  | x => x

/-- `Analyzer.createLoop`: find the first structurally differing index position
of the first left/right pair (fail only when there is none), take that pair's
expressions there as start/end, pick a loop variable, require all later pairs
to agree outside the chosen position, and clone `left` with the varying index
replaced by the loop variable. -/
def createLoop (left right : List ASTNode) : Option LoopShape :=
  match left, right with
  | .item _ iL :: ltail, .item _ iR :: rtail =>
    if iL.length != iR.length then none
    else
      match (iL.zip iR).findIdx? (fun p => !areNodesEqual p.1 p.2) with
      | none => none
      | some d =>
        let start := iL.getD d .dots
        let stop := iR.getD d .dots
        let lv := generateLoopVar start stop left right
        if checkRest d ltail rtail then
          some ⟨lv, start, stop, left.map (replaceVaryingIndex d lv)⟩
        else none
  | _, _ => none

/-- `Analyzer.match`: windows of equal length whose elements are items with
identical base names pairwise. -/
def namesMatch : List ASTNode → List ASTNode → Bool
  | [], [] => true
  | .item nL _ :: ls, .item nR _ :: rs => nL == nR && namesMatch ls rs
  | _, _ => false

/-- The `K`-search of `Analyzer.detectLoop`, from candidate size `K` upward:
stop (no loop) when `K` exceeds the dots position or the right window would
run past the end; otherwise try the window and continue with `K + 1`. -/
def detectLoopFrom (nodes : List ASTNode) (dotsIndex : Nat) : Nat → Nat → Option (Nat × LoopShape)
  | _, 0 => none
  | K, fuel + 1 =>
    if dotsIndex < K then none
    else if nodes.length ≤ dotsIndex + K then none
    else
      let left := (nodes.drop (dotsIndex - K)).take K
      let right := (nodes.drop (dotsIndex + 1)).take K
      match (if namesMatch left right then createLoop left right else none) with
      | some lp => some (K, lp)
      | none => detectLoopFrom nodes dotsIndex (K + 1) fuel

/-- `Analyzer.detectLoop`: first succeeding window size from 1 upward. The
`K ≤ dotsIndex` guard stops the search after at most `dotsIndex` rounds, so a
fuel of `dotsIndex + 1` is never exhausted. -/
def detectLoop (nodes : List ASTNode) (dotsIndex : Nat) : Option (Nat × LoopShape) :=
  detectLoopFrom nodes dotsIndex 1 (dotsIndex + 1)

/-- `Analyzer.matchesTemplate`: the concrete statement must be an item with
the template's name and arity; where the template index is a bare reference to
the loop variable the concrete index must be the number literal `indexVal`,
elsewhere the indices must be structurally equal. -/
def matchesTemplate (node template : ASTNode) (loopVar : String) (indexVal : Int) : Bool :=
  match node, template with
  | .item n ni, .item tn ti =>
    n == tn && ni.length == ti.length &&
    (ni.zip ti).all (fun p =>
      match p.2 with
      | .item bn bidx =>
        if bn == loopVar && bidx.isEmpty then
          match p.1 with
          | .number x => x == indexVal
          | _ => false
        else areNodesEqual p.1 p.2
      | _ => areNodesEqual p.1 p.2)
  | _, _ => false

/-- `Analyzer.matchLoopBody`: the candidate statements match the loop body
templates pairwise at induction value `indexVal`. -/
def matchLoopBody (nodes : List ASTNode) (lp : LoopShape) (indexVal : Int) : Bool :=
  nodes.length == lp.body.length &&
  (nodes.zip lp.body).all (fun p => matchesTemplate p.1 p.2 lp.var indexVal)

/-- `Analyzer.tryExtendLoop`: when the loop start is a number literal and the
last `K` output statements match the body at induction value `start - 1`,
remove them and decrement the start. -/
def tryExtendLoop (result : List ASTNode) (lp : LoopShape) :
    Option (List ASTNode × LoopShape) :=
  match lp.start with
  | .number v =>
    let K := lp.body.length
    if result.length < K then none
    else
      let candidate := result.drop (result.length - K)
      if matchLoopBody candidate lp (v - 1) then
        some (result.take (result.length - K), { lp with start := .number (v - 1) })
      else none
  | _ => none

/-- The extension fixpoint of `Analyzer.normalize` (`while tryExtendLoop`),
with fuel bounding the number of rounds; every successful round removes at
least one statement for the loops the analyzer builds (`K ≥ 1`), so
`result.length + 1` rounds always suffice. -/
def extendLoopGo : Nat → List ASTNode → LoopShape → List ASTNode × LoopShape
  | 0, result, lp => (result, lp)
  | fuel + 1, result, lp =>
    match tryExtendLoop result lp with
    | some (result', lp') => extendLoopGo fuel result' lp'
    | none => (result, lp)

/-- Run loop extension to the fixpoint. -/
def extendLoop (result : List ASTNode) (lp : LoopShape) : List ASTNode × LoopShape :=
  extendLoopGo (result.length + 1) result lp

/-- Main traversal of `Analyzer.normalize`: walk the Break-stripped statement
list; at a Dots marker with a detected loop, pop the left window from the
output, extend the loop backward, emit the Loop node and skip the right
window; otherwise copy the statement. -/
def normalizeGo (nodes : List ASTNode) : Nat → Nat → List ASTNode → List ASTNode
  | 0, _, result => result
  | fuel + 1, i, result =>
    if h : i < nodes.length then
      let node := nodes.get ⟨i, h⟩
      match node, detectLoop nodes i with
      | .dots, some (K, lp) =>
        let popped := result.take (result.length - K)
        let (result', lp') := extendLoop popped lp
        normalizeGo nodes fuel (i + K + 1) (result' ++ [.loop lp'.var lp'.start lp'.stop lp'.body])
      | _, _ => normalizeGo nodes fuel (i + 1) (result ++ [node])
    else result

/-- `Analyzer.normalize` over the Break-stripped statement sequence. Every
round advances the position by at least one, so `nodes.length + 1` rounds of
fuel are never exhausted. -/
def normalize (nodes : List ASTNode) : List ASTNode :=
  normalizeGo nodes (nodes.length + 1) 0 []

/-! ## Matcher / evaluator (`src/analyzer/match.ts`) -/

/-- A value bound during matching: one whitespace token, or a map from
comma-joined evaluated index tuples to tokens. -/
inductive MatchValue where
  | scalar (s : String)
  | map (entries : List (String × String))
deriving Repr

/-- The matcher's environment object: name → value, insertion ordered. -/
abbrev Env := List (String × MatchValue)

/-- Errors of the matcher and type inferencer. `MatchError` payloads are kept
distinguishable so that "the original error is rethrown" is observable.
JavaScript `NaN` corners (a non-numeric string or an object coerced by
`Number(...)`) are modelled as `nonNumeric`, and the strict-mode `TypeError` of
assigning a property on a primitive string as `propertyOnString`. -/
inductive MatchErr where
  | eof
  | unresolvedVar (name : String)
  | arrayAccessInBounds (name : String)
  | nonNumeric (name : String)
  | unknownOp (op : String)
  | unknownNodeType
  | propertyOnString (name : String)
  | typingNoValues (name : String)
deriving Repr, DecidableEq

/-- Object property write: overwrite the entry if the key exists, else append. -/
def setEnv (env : Env) (n : String) (v : MatchValue) : Env :=
  match env with
  | [] => [(n, v)]
  | (k, w) :: rest => if k == n then (k, v) :: rest else (k, w) :: setEnv rest n v

/-- Property write in an inner index-tuple map. -/
def setKey (m : List (String × String)) (k v : String) : List (String × String) :=
  match m with
  | [] => [(k, v)]
  | (k', w) :: rest => if k' == k then (k', v) :: rest else (k', w) :: setKey rest k v

/-- Loop-context update `{...loopContext, [variable]: value}`. -/
def setCtx (ctx : List (String × Int)) (n : String) (v : Int) : List (String × Int) :=
  match ctx with
  | [] => [(n, v)]
  | (k, w) :: rest => if k == n then (k, v) :: rest else (k, w) :: setCtx rest n v

/-- `evalAST`: numbers directly; item references through the merged environment
(the loop context shadows global bindings), failing on unresolved names and on
non-scalar uses; binop with integer arithmetic, `/` as floor division. -/
def evalAST (node : ASTNode) (env : Env) (ctx : List (String × Int)) : Except MatchErr Int :=
  match node with
  | .number v => .ok v
  | .item n idxs =>
    match ctx.lookup n with
    | some v => .ok v
    | none =>
      match env.lookup n with
      | none => .error (.unresolvedVar n)
      | some (.scalar s) =>
        match s.toInt? with
        | some v => .ok v
        | none => .error (.nonNumeric n)
      | some (.map _) =>
        if idxs.length > 0 then .error (.arrayAccessInBounds n)
        else .error (.nonNumeric n)
  | .binop op l r => do
    let a ← evalAST l env ctx
    let b ← evalAST r env ctx
    match op with
    | "+" => .ok (a + b)
    | "-" => .ok (a - b)
    | "*" => .ok (a * b)
    | "/" => .ok (Int.fdiv a b)
    | _ => .error (.unknownOp op)
  | _ => .error .unknownNodeType

/-- Matcher state: remaining whitespace tokens and the environment. -/
structure MState where
  toks : List String
  env : Env
deriving Repr

mutual

/-- `matchFormat.processNode`: format recurses into children; an item consumes
one token and binds it (scalar assignment, or keyed map entry under the
comma-joined evaluated indices); a loop evaluates its bounds in the merged
environment and iterates the inclusive ascending unit-step range with
`count = max(0, end - start + 1)`; break and dots are no-ops. -/
def processNode (ast : ASTNode) (ctx : List (String × Int)) (s : MState) :
    Except MatchErr MState :=
  match ast with
  | .format children => processNodes children ctx s
  | .item n idxs =>
    match s.toks with
    | [] => .error .eof
    | v :: rest => do
      let ivals ← idxs.mapM (fun ix => evalAST ix s.env ctx)
      if idxs.isEmpty then
        .ok ⟨rest, setEnv s.env n (.scalar v)⟩
      else
        let key := String.intercalate "," (ivals.map toString)
        match s.env.lookup n with
        | none => .ok ⟨rest, setEnv s.env n (.map [(key, v)])⟩
        | some (.map m) => .ok ⟨rest, setEnv s.env n (.map (setKey m key v))⟩
        | some (.scalar sv) =>
          if sv == "" then .ok ⟨rest, setEnv s.env n (.map [(key, v)])⟩
          else .error (.propertyOnString n)
  | .loop v st en body => do
    let sv ← evalAST st s.env ctx
    let ev ← evalAST en s.env ctx
    let count := (max 0 (ev - sv + 1)).toNat
    processIters body v ((List.range count).map (fun k : Nat => sv + (k : Int))) ctx s
  | .brk => .ok s
  | .dots => .ok s
  | .vdots => .ok s
  | .number _ => .ok s
  | .binop _ _ _ => .ok s
termination_by (sizeOf ast, 0)
decreasing_by all_goals (simp_wf; try omega)

/-- Process statement children in order. -/
def processNodes (l : List ASTNode) (ctx : List (String × Int)) (s : MState) :
    Except MatchErr MState :=
  match l with
  | [] => .ok s
  | a :: rest => do
    let s' ← processNode a ctx s
    processNodes rest ctx s'
termination_by (sizeOf l, 0)
decreasing_by all_goals (simp_wf; try omega)

/-- One body pass per induction value, the loop variable bound in the context. -/
def processIters (body : List ASTNode) (v : String) (vals : List Int)
    (ctx : List (String × Int)) (s : MState) : Except MatchErr MState :=
  match vals with
  | [] => .ok s
  | x :: rest => do
    let s' ← processNodes body (setCtx ctx v x) s
    processIters body v rest ctx s'
termination_by (sizeOf body, vals.length + 1)
decreasing_by all_goals (simp_wf; try omega)

end

/-- Character scanner splitting on whitespace runs (accumulating the current
token in reverse). -/
def splitWsChars : List Char → List Char → List String
  | [], acc => if acc.isEmpty then [] else [⟨acc.reverse⟩]
  | c :: rest, acc =>
    if c.isWhitespace then
      if acc.isEmpty then splitWsChars rest []
      else (⟨acc.reverse⟩ : String) :: splitWsChars rest []
    else splitWsChars rest (c :: acc)

/-- Whitespace tokenization of one sample text (`input.trim().split(/\s+/)`
with the empty-input pop): the maximal non-whitespace runs, in order. -/
def splitWs (s : String) : List String :=
  splitWsChars s.data []

/-- `matchFormat`: bind a normalized tree against one sample text. -/
def matchFormat (node : ASTNode) (input : String) : Except MatchErr Env :=
  (processNode node [] ⟨splitWs input, []⟩).map (fun s => s.env)

/-! ## Type inference (`collapseLoops` / `inferTypesFromInstances`) -/

/-- Variable value types (`VarType` in `src/analyzer/types.ts`). -/
inductive VarType where
  | int
  | index_int
  | float
  | char
  | string
  | query
deriving Repr, DecidableEq

/-- `unifyTypes`: equal stays; anything with string is string; char with
non-char is string; index-int with int is int; index-int or int with float is
float; anything else falls back to string. -/
def unifyTypes (t1 t2 : VarType) : VarType :=
  if t1 == t2 then t1
  else if t1 == .string || t2 == .string then .string
  else if t1 == .char || t2 == .char then .string
  else if (t1 == .index_int && t2 == .int) || (t2 == .index_int && t1 == .int) then .int
  else if (t1 == .index_int && t2 == .float) || (t2 == .index_int && t1 == .float) then .float
  else if (t1 == .int && t2 == .float) || (t2 == .int && t1 == .float) then .float
  else .string

/-- `/^-?\d+$/`: an optional minus then one or more digits. -/
def intLike (s : String) : Bool :=
  match s.toList with
  | [] => false
  | '-' :: rest => !rest.isEmpty && rest.all Char.isDigit
  | l => l.all Char.isDigit

/-- `/^-?\d+(\.\d+)?$/`: an optional minus, digits, optionally a dot and digits. -/
def floatLike (s : String) : Bool :=
  let l := match s.toList with
    | '-' :: rest => rest
    | l => l
  let ds := l.takeWhile Char.isDigit
  let rest := l.drop ds.length
  !ds.isEmpty &&
    (rest.isEmpty ||
      (match rest with
       | '.' :: fs => !fs.isEmpty && fs.all Char.isDigit
       | _ => false))

/-- `getVarType` on a token: integer pattern, else decimal pattern, else single
character, else string. -/
def getVarType (s : String) : VarType :=
  if intLike s then .int
  else if floatLike s then .float
  else if s.length == 1 then .char
  else .string

/-- JavaScript `Set` insertion-order deduplication. -/
def dedupKeepFirst (l : List VarType) : List VarType :=
  l.foldl (fun acc t => if acc.contains t then acc else acc ++ [t]) []

/-- Candidate types of one bound value: the scalar's type, or the deduplicated
types of the map's values in insertion order. -/
def typesOfValue : MatchValue → List VarType
  | .scalar s => [getVarType s]
  | .map m => dedupKeepFirst (m.map (fun kv => getVarType kv.2))

/-- `getVarTypesFromMatchResult`: reduce each name's candidate types with
`unifyTypes`; an empty candidate set is the (unreachable) `TypingError`. -/
def getVarTypesFromMatchResult (env : Env) : Except MatchErr (List (String × VarType)) :=
  env.mapM (fun nv =>
    match typesOfValue nv.2 with
    | [] => .error (.typingNoValues nv.1)
    | c :: cs => .ok (nv.1, cs.foldl unifyTypes c))

/-- Insertion-order string deduplication (for the `allKeys` set). -/
def dedupKeepFirstStr (l : List String) : List String :=
  l.foldl (fun acc t => if acc.contains t then acc else acc ++ [t]) []

/-- `unifyVarTypes`: union of both key sets; unify where both map the name,
otherwise keep the one present. -/
def unifyVarTypes (t1 t2 : List (String × VarType)) : List (String × VarType) :=
  (dedupKeepFirstStr (t1.map (fun p => p.1) ++ t2.map (fun p => p.1))).map (fun n =>
    match t1.lookup n, t2.lookup n with
    | some a, some b => (n, unifyTypes a b)
    | some a, none => (n, a)
    | none, some b => (n, b)
    | none, none => (n, .string))

mutual

/-- One step of the body scan of `collapseLoops`: a nested format is descended
into, an item is recorded (a second item makes the body non-simple),
break/dots are ignored, and any other node kind makes the body non-simple. -/
def scanBodyNode (c : ASTNode) (st : Option (String × List ASTNode) × Bool) :
    Option (String × List ASTNode) × Bool :=
  match c with
  | .format ch => scanBodyList ch st
  | .item n idxs =>
    (match st.1 with
     | some _ => (st.1, false)
     | none => (some (n, idxs), st.2))
  | .brk => st
  | .dots => st
  | _ => (st.1, false)

/-- Body scan of `collapseLoops` over a statement list. -/
def scanBodyList (l : List ASTNode) (st : Option (String × List ASTNode) × Bool) :
    Option (String × List ASTNode) × Bool :=
  match l with
  | [] => st
  | c :: rest => scanBodyList rest (scanBodyNode c st)

end

/-- Body scan of `collapseLoops`: find the single item of a loop body (nested
format nodes are descended into, break/dots ignored); any other node kind or a
second item makes the body non-simple. -/
def scanBody (l : List ASTNode) (st : Option (String × List ASTNode) × Bool) :
    Option (String × List ASTNode) × Bool :=
  scanBodyList l st

mutual

/-- The rewrite of `collapseLoops`: a loop whose body is a single item is
replaced by that item with the first index referencing the loop variable
removed (recording the name as collapsed); other loops recurse into their
bodies; formats recurse into their children. -/
def collapseTransform : ASTNode → ASTNode × List String
  | .format ch =>
    let r := collapseTransformList ch
    (.format r.1, r.2)
  | .loop v st en body =>
    match scanBody body (none, true) with
    | (some (nm, idxs), true) =>
      match idxs.findIdx? (fun ix =>
          match ix with
          | .item inm _ => inm == v
          | _ => false) with
      | some d => (.item nm (idxs.eraseIdx d), [nm])
      | none =>
        let r := collapseTransformList body
        (.loop v st en r.1, r.2)
    | _ =>
      let r := collapseTransformList body
      (.loop v st en r.1, r.2)
  | x => (x, [])

/-- `collapseTransform` over a statement list. -/
def collapseTransformList : List ASTNode → List ASTNode × List String
  | [] => ([], [])
  | a :: rest =>
    let r1 := collapseTransform a
    let r2 := collapseTransformList rest
    (r1.1 :: r2.1, r1.2 ++ r2.2)

end

/-- `collapseLoops`: rewritten tree plus collapsed variable names. -/
def collapseLoops (node : ASTNode) : ASTNode × List String :=
  collapseTransform node

/-- The matching-and-unification pass of `inferTypesFromInstances` over all
instances, threading the running unified type map. -/
def attemptAll (node : ASTNode) (instances : List String)
    (acc : Option (List (String × VarType))) : Except MatchErr (List (String × VarType)) :=
  match instances with
  | [] => .ok (acc.getD [])
  | inst :: rest => do
    let env ← matchFormat node inst
    let ts ← getVarTypesFromMatchResult env
    attemptAll node rest (some (match acc with
      | none => ts
      | some f => unifyVarTypes f ts))

/-- `inferTypesFromInstances`: try all instances; on failure collapse loops and
retry when anything was collapsible; if the retry also fails (or nothing was
collapsible) rethrow the first error. -/
def inferTypesFromInstances (node : ASTNode) (instances : List String) :
    Except MatchErr (List (String × VarType) × List String) :=
  if instances.isEmpty then .ok ([], [])
  else
    match attemptAll node instances none with
    | .ok t => .ok (t, [])
    | .error e =>
      let r := collapseLoops node
      if r.2.isEmpty then .error e
      else
        match attemptAll r.1 instances none with
        | .ok t => .ok (t, r.2)
        | .error _ => .error e

/-! ## Lexer subscript normalization (`Lexer.normalizeInput`) -/

/-- The unicode subscript glyph tables (`subscriptMap` and
`subscriptMinusMap`) as one partial character map. -/
def subAscii (c : Char) : Option Char :=
  match c with
  | '₀' => some '0'
  | '₁' => some '1'
  | '₂' => some '2'
  | '₃' => some '3'
  | '₄' => some '4'
  | '₅' => some '5'
  | '₆' => some '6'
  | '₇' => some '7'
  | '₈' => some '8'
  | '₉' => some '9'
  | 'ₐ' => some 'a'
  | 'ₑ' => some 'e'
  | 'ₕ' => some 'h'
  | 'ᵢ' => some 'i'
  | 'ⱼ' => some 'j'
  | 'ₖ' => some 'k'
  | 'ₗ' => some 'l'
  | 'ₘ' => some 'm'
  | 'ₙ' => some 'n'
  | 'ₒ' => some 'o'
  | 'ₚ' => some 'p'
  | 'ᵣ' => some 'r'
  | 'ₛ' => some 's'
  | 'ₜ' => some 't'
  | 'ᵤ' => some 'u'
  | 'ᵥ' => some 'v'
  | 'ₓ' => some 'x'
  | '₋' => some '-'
  | _ => none

/-- Is the character a unicode subscript glyph the lexer rewrites? -/
def isSubGlyph (c : Char) : Bool :=
  (subAscii c).isSome

/-- The character loop of `Lexer.normalizeInput`: a subscript glyph emits its
ASCII equivalent, preceded by `_` only when the previous character was not a
subscript glyph; any other character resets the run state and passes through. -/
def normalizeChars (inSub : Bool) : List Char → List Char
  | [] => []
  | c :: rest =>
    match subAscii c with
    | some a => (if inSub then [a] else ['_', a]) ++ normalizeChars true rest
    | none => c :: normalizeChars false rest

/-- `Lexer.normalizeInput` on a string. -/
def normalizeInput (s : String) : String :=
  ⟨normalizeChars false s.data⟩

/-- Length of `dropWhile` never exceeds the input's length. -/
theorem dropWhile_length_le {α : Type} (p : α → Bool) :
    ∀ l : List α, (l.dropWhile p).length ≤ l.length
  | [] => le_refl _
  | a :: l => by
      simp only [List.dropWhile]
      split
      · exact le_trans (dropWhile_length_le p l) (Nat.le_succ _)
      · exact le_refl _

/-- Modelled from the spec's words, for refinement comparison with
`normalizeInput`: each maximal run of subscript glyphs becomes a single `_`
followed by the ASCII equivalents of the run's glyphs; characters outside such
runs pass through unchanged. -/
def subRunNormalize : List Char → List Char
  | [] => []
  | c :: rest =>
    if isSubGlyph c then
      '_' :: ((c :: rest).takeWhile isSubGlyph).map (fun x => (subAscii x).getD x)
        ++ subRunNormalize ((c :: rest).dropWhile isSubGlyph)
    else c :: subRunNormalize rest
termination_by l => l.length
decreasing_by
  · rename_i h
    have h2 := dropWhile_length_le isSubGlyph rest
    simp only [List.dropWhile, h, List.length_cons]
    omega
  · simp

/-- The spec's normalization on a string. -/
def specNormalizeInput (s : String) : String :=
  ⟨subRunNormalize s.data⟩

/-! ## Universal generator (`src/generator/universal.ts`, multi-part version) -/

/-- Template keys produced by `mapVarType`. -/
inductive TypeKey where
  | int
  | float
  | str
deriving Repr, DecidableEq

/-- `UniversalGenerator.mapVarType`: int and index-int map to `int`, float to
`float`, string and char to `str`; everything else defaults to `int`. -/
def mapVarType : VarType → TypeKey
  | .int => .int
  | .index_int => .int
  | .float => .float
  | .string => .str
  | .char => .str
  | .query => .int

/-- The generator's template configuration surface (`CodeGeneratorConfig`). -/
structure GenConfig where
  base_indent : Nat
  declare : TypeKey → String
  typeName : TypeKey → String
  da_seq : String
  da_2d : String
  inputTmpl : TypeKey → String
  access_seq : String
  access_2d : String
  arg : TypeKey → String
  arg_seq : String
  arg_2d : String
  actual_seq : Option String
  actual_2d : Option String
  loop_header : String
  loop_footer : String

/-- One indentation step, `' '.repeat(config.base_indent)`. -/
def indentStr (cfg : GenConfig) : String :=
  ⟨List.replicate cfg.base_indent ' '⟩

/-- A `\w` character of the template placeholder regex. -/
def isWordChar (c : Char) : Bool :=
  c.isAlphanum || c == '_'

/-- Character scanner of `formatString` (`template.replace(/{(\w+)}/g, ...)`):
a brace-delimited word is replaced by its parameter (missing or empty
parameters reproduce the placeholder); everything else passes through. -/
def fmtChars (params : List (String × String)) : Nat → List Char → List Char
  | 0, l => l
  | _ + 1, [] => []
  | fuel + 1, c :: rest =>
    if c == '\x7b' then
      let key := rest.takeWhile isWordChar
      match rest.drop key.length with
      | '\x7d' :: tail =>
        if key.isEmpty then c :: fmtChars params fuel rest
        else
          (match params.lookup (⟨key⟩ : String) with
           | some v => if v == "" then '\x7b' :: (key ++ ['\x7d']) else v.data
           | none => '\x7b' :: (key ++ ['\x7d'])) ++ fmtChars params fuel tail
      | _ => c :: fmtChars params fuel rest
    else c :: fmtChars params fuel rest

/-- `UniversalGenerator.formatString`. Every round consumes at least one
character, so `length + 1` rounds of fuel are never exhausted. -/
def fmtString (template : String) (params : List (String × String)) : String :=
  ⟨fmtChars params (template.data.length + 1) template.data⟩

/-- `UniversalGenerator.stringifyNode`: item name, number literal, binop
re-serialized with spaces; node kinds without a name or value give `''`. -/
def stringifyNode : ASTNode → String
  | .item n _ => n
  | .number v => toString v
  | .binop op l r => stringifyNode l ++ " " ++ op ++ " " ++ stringifyNode r
  | .loop _ _ _ _ => ""
  | .format _ => ""
  | .dots => ""
  | .vdots => ""
  | .brk => ""

/-- `stringifyNode` behind the `if (!node) return '';` undefined guard. -/
def stringifyOpt : Option ASTNode → String
  | none => ""
  | some n => stringifyNode n

/-- A variable descriptor consumed by the generator. -/
structure GVariable where
  name : String
  type : VarType
  dims : Nat
  indices : List ASTNode

/-- `UniversalGenerator.generateDeclaration`. -/
def generateDeclaration (cfg : GenConfig) (v : GVariable) : String :=
  let key := mapVarType v.type
  if v.dims == 0 then
    fmtString (cfg.declare key) [("name", v.name)]
  else if v.dims == 1 then
    fmtString cfg.da_seq
      [("name", v.name), ("type", cfg.typeName key), ("length", stringifyOpt v.indices[0]?)]
  else if v.dims == 2 then
    fmtString cfg.da_2d
      [("name", v.name), ("type", cfg.typeName key),
       ("length_i", stringifyOpt v.indices[0]?), ("length_j", stringifyOpt v.indices[1]?)]
  else "// TODO: declaration for " ++ v.name

/-- `UniversalGenerator.generateItemInput`: a name with no matching variable
descriptor yields the unresolved-marker comment; otherwise a scalar, indexed,
or 2-D read through the templates. -/
def generateItemInput (cfg : GenConfig) (n : String) (idxs : List ASTNode)
    (vars : List GVariable) : String :=
  match vars.find? (fun v => v.name == n) with
  | none => "// Unknown variable " ++ n
  | some v =>
    let key := mapVarType v.type
    if v.dims == 0 then
      fmtString (cfg.inputTmpl key) [("name", v.name)]
    else if v.dims == 1 then
      let access := fmtString cfg.access_seq
        [("name", v.name), ("index", stringifyOpt idxs[0]?)]
      fmtString (cfg.inputTmpl key) [("name", access)]
    else if v.dims == 2 then
      let access := fmtString cfg.access_2d
        [("name", v.name), ("index_i", stringifyOpt idxs[0]?), ("index_j", stringifyOpt idxs[1]?)]
      fmtString (cfg.inputTmpl key) [("name", access)]
    else "// TODO: input for " ++ n

mutual

/-- The per-node lines of `UniversalGenerator.generateInput`: one read line
per item; a loop emits a header from the loop template (loop variable and the
re-serialized end bound), the indented body lines, and the footer
(`generateLoopInput`); other node kinds emit nothing. -/
def generateInputNode (cfg : GenConfig) (vars : List GVariable) : ASTNode → List String
  | .item n idxs => [generateItemInput cfg n idxs vars]
  | .loop v _st en body =>
    fmtString cfg.loop_header [("loop_var", v), ("length", stringifyNode en)]
      :: ((generateInputList cfg vars body).map (fun l => indentStr cfg ++ l)
          ++ [cfg.loop_footer])
  | _ => []

/-- `UniversalGenerator.generateInput` over a statement list. -/
def generateInputList (cfg : GenConfig) (vars : List GVariable) : List ASTNode → List String
  | [] => []
  | a :: rest => generateInputNode cfg vars a ++ generateInputList cfg vars rest

end

/-- `UniversalGenerator.generateInput`. -/
def generateInput (cfg : GenConfig) (nodes : List ASTNode) (vars : List GVariable) :
    List String :=
  generateInputList cfg vars nodes

/-- `UniversalGenerator.generateFormalArguments`. -/
def generateFormalArguments (cfg : GenConfig) (vars : List GVariable) : String :=
  String.intercalate ", " (vars.map (fun v =>
    let key := mapVarType v.type
    if v.dims == 0 then
      fmtString (cfg.arg key) [("name", v.name), ("type", cfg.typeName key)]
    else if v.dims == 1 then
      fmtString cfg.arg_seq [("name", v.name), ("type", cfg.typeName key)]
    else if v.dims == 2 then
      fmtString cfg.arg_2d [("name", v.name), ("type", cfg.typeName key)]
    else ""))

/-- `UniversalGenerator.generateActualArguments`. -/
def generateActualArguments (cfg : GenConfig) (vars : List GVariable) : String :=
  String.intercalate ", " (vars.map (fun v =>
    if v.dims == 0 then v.name
    else
      match (if v.dims == 1 then cfg.actual_seq else cfg.actual_2d) with
      | some t => fmtString t [("name", v.name)]
      | none => v.name))

/-- One part of a multi-part (query) format: its variable descriptors and the
children of its normalized format tree. -/
structure GenPart where
  pvars : List GVariable
  tree : List ASTNode

/-- The argument-collection fold of `generate` (dedupe by name, first
occurrence wins). -/
def addVars (acc : List GVariable) (vs : List GVariable) : List GVariable :=
  vs.foldl (fun acc v => if acc.any (fun av => av.name == v.name) then acc else acc ++ [v]) acc

/-- `allVariables` of the multi-part path of `generate`. -/
def allVariables (parts : List GenPart) : List GVariable :=
  parts.foldl (fun acc p => addVars acc p.pvars) []

/-- The query-count selection of `generate`: a setup variable named `Q`/`q`,
else the last scalar integer setup variable, else a literal fallback line. -/
def queryLoopVarSel (setupVars : List GVariable) : String × List String :=
  match setupVars.find? (fun v => v.name == "Q" || v.name == "q") with
  | some v => (v.name, [])
  | none =>
    let scalarInts := setupVars.filter
      (fun v => v.dims == 0 && (v.type == .int || v.type == .index_int))
    match scalarInts.getLast? with
    | some v => (v.name, [])
    | none => ("Q", ["int Q; cin >> Q; // TODO: Check variable name"])

/-- The dispatch discriminator of part `i`: the part's leading number literal,
else the 1-based part position. -/
def discriminatorOf (tree : List ASTNode) (i : Nat) : String :=
  match tree.head? with
  | some (.number v) => toString v
  | _ => toString i

/-- One dispatch branch of the multi-part path: `if`/`else if` header on the
discriminator, the part's declarations and reads doubly indented, and the
closing brace. -/
def branchLines (cfg : GenConfig) (i : Nat) (part : GenPart) : List String :=
  let ind := indentStr cfg
  let bt := if i == 1 then "if" else "else if"
  (ind ++ bt ++ " (type == " ++ discriminatorOf part.tree i ++ ") \x7b")
    :: ((part.pvars.map (generateDeclaration cfg)
          ++ generateInput cfg part.tree part.pvars).map (fun l => ind ++ ind ++ l)
        ++ [ind ++ "\x7d"])

/-- The `lines` array of the multi-part path of `UniversalGenerator.generate`:
setup declarations and reads, the query-count `while`, the discriminator read,
one branch per query part, and the closing brace. -/
def generateMultiLines (cfg : GenConfig) (p0 : GenPart) (rest : List GenPart) : List String :=
  let ind := indentStr cfg
  let sel := queryLoopVarSel p0.pvars
  (p0.pvars.map (generateDeclaration cfg))
    ++ generateInput cfg p0.tree p0.pvars
    ++ sel.2
    ++ ["while(" ++ sel.1 ++ "--)\x7b"]
    ++ [ind ++ "int type; cin >> type;"]
    ++ ((List.enumFrom 1 rest).map (fun p => branchLines cfg p.1 p.2)).flatten
    ++ ["\x7d"]

/-- The context bundle returned by the multi-part path. -/
structure GenContext where
  lines : List String
  formal_arguments : String
  actual_arguments : String

/-- The multi-part path of `UniversalGenerator.generate` (`parts.length > 1`). -/
def generateMulti (cfg : GenConfig) (p0 : GenPart) (rest : List GenPart) : GenContext :=
  { lines := generateMultiLines cfg p0 rest
    formal_arguments := generateFormalArguments cfg (allVariables (p0 :: rest))
    actual_arguments := generateActualArguments cfg (allVariables (p0 :: rest)) }

/-- First-occurrence-wins deduplication by variable name, written the way the
spec describes sharing (used to characterize `allVariables`). -/
def dedupeByName : List GVariable → List GVariable
  | [] => []
  | v :: vs => v :: dedupeByName (vs.filter (fun w => w.name != v.name))
termination_by l => l.length
decreasing_by
  exact Nat.lt_succ_of_le (List.length_filter_le _ _)

/-- A concrete C++-flavoured template configuration (an instance of the
external configuration contract, used in concrete evaluations). -/
def cppConfig : GenConfig :=
  { base_indent := 4
    declare := fun k =>
      match k with
      | .int => "int {name};"
      | .float => "double {name};"
      | .str => "string {name};"
    typeName := fun k =>
      match k with
      | .int => "int"
      | .float => "double"
      | .str => "string"
    da_seq := "vector<{type}> {name}({length});"
    da_2d := "vector<vector<{type}>> {name}({length_i}, vector<{type}>({length_j}));"
    inputTmpl := fun _ => "cin >> {name};"
    access_seq := "{name}[{index}]"
    access_2d := "{name}[{index_i}][{index_j}]"
    arg := fun k =>
      match k with
      | .int => "int {name}"
      | .float => "double {name}"
      | .str => "string {name}"
    arg_seq := "vector<{type}> {name}"
    arg_2d := "vector<vector<{type}>> {name}"
    actual_seq := some "{name}"
    actual_2d := some "{name}"
    loop_header := "for(int {loop_var} = 0 ; {loop_var} < {length} ; {loop_var}++)\x7b"
    loop_footer := "\x7d" }

/-- The inclusive ascending unit-step integer range `[lo, hi]` (the spec's
description of the matcher's loop iteration domain). -/
def intRange (lo hi : Int) : List Int :=
  if lo > hi then [] else lo :: intRange (lo + 1) hi
termination_by (hi + 1 - lo).toNat
decreasing_by simp_wf; omega

/-! ## Theorems -/

/-- Offsetting `List.range` by an integer start yields the inclusive range. -/
theorem range_map_eq_intRange (n : Nat) :
    ∀ sv : Int, (List.range n).map (fun k : Nat => sv + (k : Int)) = intRange sv (sv + (n : Int) - 1) := by
  induction n with
  | zero =>
    intro sv
    rw [intRange]
    simp
  | succ m ih =>
    intro sv
    have hle : ¬ sv > sv + (↑(m + 1) : Int) - 1 := by push_cast; omega
    rw [intRange, if_neg hle, List.range_succ_eq_map]
    simp only [List.map_cons, List.map_map]
    congr 1
    · simp
    · have hcomp : ((fun k : Nat => sv + (k : Int)) ∘ Nat.succ) = (fun k : Nat => (sv + 1) + (k : Int)) := by
        funext k
        simp only [Function.comp_apply]
        push_cast
        ring
      rw [hcomp, ih (sv + 1)]
      congr 1
      push_cast
      ring

/-- The matcher's iteration values (`start + i` for `i < count`) are exactly
the inclusive range `[start, end]`. -/
theorem iter_vals_eq_intRange (sv ev : Int) :
    (List.range (max 0 (ev - sv + 1)).toNat).map (fun k : Nat => sv + (k : Int)) = intRange sv ev := by
  rcases le_or_lt sv ev with h | h
  · rw [range_map_eq_intRange]
    congr 1
    omega
  · have h0 : (max 0 (ev - sv + 1)).toNat = 0 := by omega
    rw [h0, intRange]
    simp [h]

/-- C2: for the statement sequence `a_1 a_2 a_3 … a_n` the Analyzer emits a
single Loop whose start is the literal 1: after the window `a_3 … a_n` builds
a loop with literal start 3, backward extension absorbs `a_2` and `a_1`
(each matching the body at induction value start − 1), decrementing the start
to 1. -/
theorem analyzer_loop_extension_reaches_one :
    normalize [.item "a" [.number 1], .item "a" [.number 2], .item "a" [.number 3],
               .dots, .item "a" [.item "n" []]]
      = [.loop "i" (.number 1) (.item "n" []) [.item "a" [.item "i" []]]] := rfl

/-- C1 counterexample: at the Dots position of
`A_{1,1} … A_{n,m}` the first left/right pair differs structurally at **two**
index positions, yet window size `K = 1` succeeds and builds a Loop varying
the first differing position — the claim says a pair differing in more than
one position must yield no Loop. -/
theorem detectLoop_two_diffs_counterexample :
    detectLoop [.item "A" [.number 1, .number 1], .dots,
                .item "A" [.item "n" [], .item "m" []]] 1
      = some (1, ⟨"i", .number 1, .item "n" [],
                  [.item "A" [.item "i" [], .number 1]]⟩)
    ∧ (([ASTNode.number 1, ASTNode.number 1].zip
          [ASTNode.item "n" [], ASTNode.item "m" []]).countP
          (fun p => !areNodesEqual p.1 p.2)) = 2 :=
  ⟨rfl, rfl⟩

/-- C1 amended: a window succeeds only if the first pair differs in at least
one index position; the chosen varying position is the **first** structurally
differing one (positions before it agree, the chosen one differs), and
further differing positions of the first pair do not make `K` fail; zero
differing positions fails; every pair beyond the first must agree with its
partner at every index position other than the chosen one (`checkRest`). -/
theorem createLoop_uses_first_diff (nL nR : String) (iL iR ltail rtail : List ASTNode) :
    ((iL.length = iR.length ∧ ∀ p ∈ iL.zip iR, areNodesEqual p.1 p.2 = true) →
      createLoop (.item nL iL :: ltail) (.item nR iR :: rtail) = none)
    ∧ (∀ lp, createLoop (.item nL iL :: ltail) (.item nR iR :: rtail) = some lp →
        ∃ d, (iL.zip iR).findIdx? (fun p => !areNodesEqual p.1 p.2) = some d
          ∧ d < (iL.zip iR).length
          ∧ areNodesEqual ((iL.zip iR).getD d (.dots, .dots)).1
              ((iL.zip iR).getD d (.dots, .dots)).2 = false
          ∧ (∀ j, j < d → areNodesEqual ((iL.zip iR).getD j (.dots, .dots)).1
              ((iL.zip iR).getD j (.dots, .dots)).2 = true)
          ∧ lp.start = iL.getD d .dots
          ∧ lp.stop = iR.getD d .dots
          ∧ checkRest d ltail rtail = true
          ∧ lp.var = generateLoopVar (iL.getD d .dots) (iR.getD d .dots)
              (.item nL iL :: ltail) (.item nR iR :: rtail)
          ∧ lp.body = (ASTNode.item nL iL :: ltail).map (replaceVaryingIndex d lp.var)) := by
  constructor
  · rintro ⟨hlen, hall⟩
    have hnone : (iL.zip iR).findIdx? (fun p => !areNodesEqual p.1 p.2) = none := by
      rw [List.findIdx?_eq_none_iff]
      intro x hx
      simp [hall x hx]
    simp [createLoop, hlen, hnone]
  · intro lp h
    simp only [createLoop] at h
    split at h
    · exact absurd h (by simp)
    · rename_i hlen
      split at h
      · exact absurd h (by simp)
      · rename_i d hfi
        split at h
        · rename_i hrest
          refine ⟨d, hfi, ?_, ?_, ?_, ?_⟩
          · exact (List.findIdx?_eq_some_iff_findIdx_eq.mp hfi).1
          · have hd := (List.findIdx?_eq_some_iff_findIdx_eq.mp hfi).1
            have hfx := (List.findIdx?_eq_some_iff_findIdx_eq.mp hfi).2
            have := @List.findIdx_getElem _ (fun p => !areNodesEqual p.1 p.2)
              (iL.zip iR) (by rw [hfx]; exact hd)
            rw [List.getD_eq_getElem _ _ hd]
            simp only [hfx] at this
            simpa using this
          · intro j hj
            have hd := (List.findIdx?_eq_some_iff_findIdx_eq.mp hfi).1
            have hfx := (List.findIdx?_eq_some_iff_findIdx_eq.mp hfi).2
            have hjlen : j < (iL.zip iR).length := lt_trans hj hd
            have := @List.not_of_lt_findIdx _ (fun p => !areNodesEqual p.1 p.2)
              (iL.zip iR) j (by rw [hfx]; exact hj)
            rw [List.getD_eq_getElem _ _ hjlen]
            simpa using this
          · obtain ⟨rfl⟩ := Option.some.inj h
            exact ⟨rfl, rfl, hrest, rfl, rfl⟩
        · exact absurd h (by simp)

/-- C1 witness: a window whose first pair differs in exactly one position
satisfies the success side of the amended theorem. -/
theorem createLoop_uses_first_diff_witness :
    ∃ d, ([ASTNode.number 3].zip [ASTNode.item "n" []]).findIdx?
        (fun p => !areNodesEqual p.1 p.2) = some d
      ∧ d < ([ASTNode.number 3].zip [ASTNode.item "n" []]).length
      ∧ areNodesEqual (([ASTNode.number 3].zip [ASTNode.item "n" []]).getD d (.dots, .dots)).1
          (([ASTNode.number 3].zip [ASTNode.item "n" []]).getD d (.dots, .dots)).2 = false
      ∧ (∀ j, j < d → areNodesEqual (([ASTNode.number 3].zip [ASTNode.item "n" []]).getD j (.dots, .dots)).1
          (([ASTNode.number 3].zip [ASTNode.item "n" []]).getD j (.dots, .dots)).2 = true)
      ∧ (LoopShape.mk "i" (.number 3) (.item "n" []) [.item "a" [.item "i" []]]).start
          = [ASTNode.number 3].getD d .dots
      ∧ (LoopShape.mk "i" (.number 3) (.item "n" []) [.item "a" [.item "i" []]]).stop
          = [ASTNode.item "n" []].getD d .dots
      ∧ checkRest d [] [] = true
      ∧ (LoopShape.mk "i" (.number 3) (.item "n" []) [.item "a" [.item "i" []]]).var
          = generateLoopVar ([ASTNode.number 3].getD d .dots) ([ASTNode.item "n" []].getD d .dots)
              (.item "a" [.number 3] :: []) (.item "a" [.item "n" []] :: [])
      ∧ (LoopShape.mk "i" (.number 3) (.item "n" []) [.item "a" [.item "i" []]]).body
          = (ASTNode.item "a" [.number 3] :: []).map (replaceVaryingIndex d
              (LoopShape.mk "i" (.number 3) (.item "n" []) [.item "a" [.item "i" []]]).var) :=
  (createLoop_uses_first_diff "a" "a" [.number 3] [.item "n" []] [] []).2
    ⟨"i", .number 3, .item "n" [], [.item "a" [.item "i" []]]⟩ rfl

/-- C5 counterexample: when every candidate `i, j, k, l, m` already occurs as
an identifier in the window (`X_{i_{j,k,l,m},1} … X_{i_{j,k,l,m},n}`), the
fallback symbol `i` is chosen even though `i` is an identifier in scope, so
the produced Loop's induction variable collides. -/
theorem loopvar_fallback_collision_counterexample :
    normalize [.item "X" [.item "i" [.item "j" [], .item "k" [], .item "l" [], .item "m" []],
                          .number 1],
               .dots,
               .item "X" [.item "i" [.item "j" [], .item "k" [], .item "l" [], .item "m" []],
                          .item "n" []]]
      = [.loop "i" (.number 1) (.item "n" [])
          [.item "X" [.item "i" [.item "j" [], .item "k" [], .item "l" [], .item "m" []],
                      .item "i" []]]]
    ∧ "i" ∈ usedNames (.number 1) (.item "n" [])
        [.item "X" [.item "i" [.item "j" [], .item "k" [], .item "l" [], .item "m" []], .number 1]]
        [.item "X" [.item "i" [.item "j" [], .item "k" [], .item "l" [], .item "m" []], .item "n" []]] :=
  ⟨rfl, by decide⟩

/-- C5 amended: the induction variable is the first of the candidates
`i, j, k, l, m` that occurs nowhere in the start/end expressions or the
left/right window items, with `i` as fallback; the no-collision consequence
holds whenever at least one candidate is unused (and can fail in the fallback
case, see the counterexample). -/
theorem generateLoopVar_avoids_used (start stop : ASTNode) (left right : List ASTNode)
    (h : ∃ c ∈ ["i", "j", "k", "l", "m"], c ∉ usedNames start stop left right) :
    generateLoopVar start stop left right ∈ ["i", "j", "k", "l", "m"]
    ∧ generateLoopVar start stop left right ∉ usedNames start stop left right := by
  have hsome : (["i", "j", "k", "l", "m"].find?
      (fun c => !(usedNames start stop left right).contains c)).isSome = true := by
    rw [List.find?_isSome]
    obtain ⟨c, hc, hnc⟩ := h
    refine ⟨c, hc, ?_⟩
    have hfalse : (usedNames start stop left right).contains c = false := by
      rw [show (usedNames start stop left right).contains c
            = (usedNames start stop left right).elem c from rfl, List.elem_eq_mem]
      simpa using hnc
    simp only [hfalse, Bool.not_false]
  obtain ⟨c, hc⟩ := Option.isSome_iff_exists.mp hsome
  have hm := List.mem_of_find?_eq_some hc
  have hp := List.find?_some hc
  have hval : generateLoopVar start stop left right = c := by
    simp only [generateLoopVar]
    rw [hc]
  refine ⟨hval ▸ hm, hval ▸ ?_⟩
  simp only [Bool.not_eq_true'] at hp
  have hp2 : decide (c ∈ usedNames start stop left right) = false := by
    rw [← List.elem_eq_mem]
    simpa using hp
  exact of_decide_eq_false hp2

/-- C5 witness: with only `a` and `n` in scope the first candidate `i` is free
and chosen, and it does not collide. -/
theorem generateLoopVar_avoids_used_witness :
    generateLoopVar (.number 1) (.item "n" []) [.item "a" [.number 1]]
        [.item "a" [.item "n" []]] ∈ ["i", "j", "k", "l", "m"]
    ∧ generateLoopVar (.number 1) (.item "n" []) [.item "a" [.number 1]]
        [.item "a" [.item "n" []]] ∉ usedNames (.number 1) (.item "n" [])
        [.item "a" [.number 1]] [.item "a" [.item "n" []]] :=
  generateLoopVar_avoids_used _ _ _ _ ⟨"i", by decide, by decide⟩

/-- C3: for every Loop node, `matchFormat` evaluates start and end in the
merged global-plus-induction environment and executes the body once per value
of the inclusive ascending unit-step range `[start, end]` — exactly
`max(0, end − start + 1)` iterations — and a zero-length or negative range
leaves the state untouched (no tokens consumed, nothing bound, no error). -/
theorem matcher_loop_inclusive_range (v : String) (st en : ASTNode) (body : List ASTNode)
    (ctx : List (String × Int)) (s : MState) (sv ev : Int)
    (h1 : evalAST st s.env ctx = .ok sv) (h2 : evalAST en s.env ctx = .ok ev) :
    processNode (.loop v st en body) ctx s = processIters body v (intRange sv ev) ctx s
    ∧ (intRange sv ev).length = (max 0 (ev - sv + 1)).toNat
    ∧ (ev < sv → processNode (.loop v st en body) ctx s = .ok s) := by
  have hmain : processNode (.loop v st en body) ctx s
      = processIters body v (intRange sv ev) ctx s := by
    rw [processNode]
    simp only [h1, h2, Except.bind, bind]
    rw [iter_vals_eq_intRange]
  refine ⟨hmain, ?_, fun hlt => ?_⟩
  · rw [← iter_vals_eq_intRange]
    simp
  · rw [hmain]
    have hempty : intRange sv ev = [] := by
      rw [intRange]
      simp [hlt]
    rw [hempty, processIters]

/-- C3 witness: a loop with bounds `5 .. 2` (negative range) consumes nothing,
binds nothing and raises no error. -/
theorem matcher_loop_inclusive_range_witness :
    processNode (.loop "i" (.number 5) (.number 2) [.item "a" [.item "i" []]]) []
        ⟨["x"], []⟩ = .ok ⟨["x"], []⟩ :=
  (matcher_loop_inclusive_range "i" (.number 5) (.number 2) [.item "a" [.item "i" []]]
    [] ⟨["x"], []⟩ 5 2 rfl rfl).2.2 (by decide)

/-- Overwriting property-write semantics of the environment object. -/
theorem lookup_setEnv (env : Env) (n : String) (v : MatchValue) :
    (setEnv env n v).lookup n = some v := by
  induction env with
  | nil => simp [setEnv, List.lookup]
  | cons kv rest ih =>
    obtain ⟨k, w⟩ := kv
    simp only [setEnv]
    by_cases hk : k = n
    · subst hk
      simp [List.lookup]
    · have h1 : (k == n) = false := by simp [hk]
      have h2 : (n == k) = false := by simp [Ne.symm hk]
      simp [h1, List.lookup, h2, ih]

/-- C10: a zero-index Item processed twice for one input consumes one
whitespace token per occurrence and silently overwrites the binding, so the
environment maps the name to the token of the last occurrence only. -/
theorem matcher_scalar_overwrite (n : String) (ctx : List (String × Int))
    (v1 v2 : String) (rest : List String) (env : Env) :
    processNodes [.item n [], .item n []] ctx ⟨v1 :: v2 :: rest, env⟩
      = .ok ⟨rest, setEnv (setEnv env n (.scalar v1)) n (.scalar v2)⟩
    ∧ (setEnv (setEnv env n (.scalar v1)) n (.scalar v2)).lookup n
      = some (.scalar v2) := by
  constructor
  · simp [processNodes, processNode, List.mapM, List.mapM.loop,
          Except.bind, bind, Except.map, Except.pure, pure]
  · exact lookup_setEnv _ _ _

/-- C6: over the five value types (query excluded) `unifyTypes` is commutative
and associative, so a type folded from any finite multiset of observations is
order-independent. -/
theorem unifyTypes_comm_assoc (t1 t2 t3 : VarType)
    (h1 : t1 ≠ .query) (h2 : t2 ≠ .query) (h3 : t3 ≠ .query) :
    unifyTypes t1 t2 = unifyTypes t2 t1
    ∧ unifyTypes (unifyTypes t1 t2) t3 = unifyTypes t1 (unifyTypes t2 t3) := by
  revert h1 h2 h3
  cases t1 <;> cases t2 <;> cases t3 <;> decide

/-- C6 witness at `index-int, int, float`. -/
theorem unifyTypes_comm_assoc_witness :
    unifyTypes VarType.index_int VarType.int = unifyTypes VarType.int VarType.index_int
    ∧ unifyTypes (unifyTypes VarType.index_int VarType.int) VarType.float
      = unifyTypes VarType.index_int (unifyTypes VarType.int VarType.float) :=
  unifyTypes_comm_assoc .index_int .int .float
    (by decide) (by decide) (by decide)

/-- Inside a subscript run, the lexer loop emits the ASCII equivalents of the
rest of the run (no extra `_`) and then continues outside the run. -/
theorem normalizeChars_true (rest : List Char) :
    normalizeChars true rest
      = (rest.takeWhile isSubGlyph).map (fun x => (subAscii x).getD x)
        ++ normalizeChars false (rest.dropWhile isSubGlyph) := by
  induction rest with
  | nil => simp [normalizeChars]
  | cons d rest ih =>
    cases hd : subAscii d with
    | some a =>
      have hg : isSubGlyph d = true := by simp [isSubGlyph, hd]
      simp only [normalizeChars, hd, List.takeWhile_cons, List.dropWhile_cons, hg,
        if_true, List.map_cons, Option.getD_some, List.cons_append, List.nil_append]
      exact congrArg (a :: ·) ih
    | none =>
      have hg : isSubGlyph d = false := by simp [isSubGlyph, hd]
      simp [normalizeChars, hd, hg, List.takeWhile_cons, List.dropWhile_cons]

/-- The lexer's stateful character loop equals the run-based description. -/
theorem normalizeChars_eq_subRun (l : List Char) :
    normalizeChars false l = subRunNormalize l := by
  cases l with
  | nil => simp [normalizeChars, subRunNormalize]
  | cons c rest =>
    cases hc : subAscii c with
    | some a =>
      have hg : isSubGlyph c = true := by simp [isSubGlyph, hc]
      rw [subRunNormalize, if_pos hg]
      have ih := normalizeChars_eq_subRun (rest.dropWhile isSubGlyph)
      simp only [normalizeChars, hc, List.takeWhile_cons, hg, if_true,
        List.dropWhile_cons, List.map_cons, Option.getD_some, List.cons_append]
      rw [normalizeChars_true rest, ih]
      simp
    | none =>
      have hg : isSubGlyph c = false := by simp [isSubGlyph, hc]
      rw [subRunNormalize, if_neg (by simp [hg])]
      have ih := normalizeChars_eq_subRun rest
      simp [normalizeChars, hc, ih]
termination_by l.length
decreasing_by
  · simp only [List.length_cons]
    omega
  · simp only [List.length_cons]
    exact Nat.lt_succ_of_le (dropWhile_length_le _ _)

/-- C9: the lexer's pre-tokenization normalization maps each maximal run of
unicode subscript glyphs to a single `_` followed by the ASCII equivalents of
the run's glyphs, and passes every character outside such runs through
unchanged (`normalizeInput` equals the run-based spec description). -/
theorem lexer_subscript_run_normalization (s : String) :
    normalizeInput s = specNormalizeInput s := by
  unfold normalizeInput specNormalizeInput
  rw [normalizeChars_eq_subRun]

/-- C4 counterexample: a Loop whose single body Item references the loop
variable at **two** index positions is still collapsed (the first such index
is dropped), although the claim restricts the rewrite to items referencing the
loop variable in precisely one index position. -/
theorem collapseLoops_two_positions_counterexample :
    collapseLoops (.format [.loop "i" (.number 1) (.item "N" [])
        [.item "a" [.item "i" [], .item "i" []]]])
      = (.format [.item "a" [.item "i" []]], ["a"]) := rfl

/-- C4 amended: when matching every instance against the original tree fails,
the collapse rewrite drops the **first** index referencing the loop variable
of a single-item loop body (at least one such index suffices, uniqueness is
not required); the rewritten tree is retried only when something was
collapsed, and whether the retry fails or nothing was collapsible, the error
of the original tree is what reaches the caller. -/
theorem inferTypes_retry_surfaces_original_error (node : ASTNode) (instances : List String)
    (e : MatchErr) (hne : instances ≠ []) (h1 : attemptAll node instances none = .error e) :
    ((collapseLoops node).2 = [] → inferTypesFromInstances node instances = .error e)
    ∧ (∀ e2 : MatchErr, (collapseLoops node).2 ≠ [] →
        attemptAll (collapseLoops node).1 instances none = .error e2 →
        inferTypesFromInstances node instances = .error e)
    ∧ (∀ (v : String) (st en : ASTNode) (nm : String) (idxs : List ASTNode) (d : Nat),
        idxs.findIdx? (fun ix =>
          match ix with
          | .item inm _ => inm == v
          | _ => false) = some d →
        collapseTransform (.loop v st en [.item nm idxs])
          = (.item nm (idxs.eraseIdx d), [nm])) := by
  have hemp : instances.isEmpty = false := by
    cases instances with
    | nil => exact absurd rfl hne
    | cons a l => rfl
  refine ⟨fun hcv => ?_, fun e2 hcv h2 => ?_, fun v st en nm idxs d hd => ?_⟩
  · simp only [inferTypesFromInstances, hemp, Bool.false_eq_true, if_false, h1, hcv,
      List.isEmpty_nil]
    simp
  · simp only [inferTypesFromInstances, hemp, Bool.false_eq_true, if_false, h1]
    have hcv2 : (collapseLoops node).2.isEmpty = false := by
      cases hx : (collapseLoops node).2 with
      | nil => exact absurd hx hcv
      | cons a l => rfl
    simp only [hcv2, Bool.false_eq_true, if_false, h2]
  · simp only [collapseTransform, scanBody, scanBodyList, scanBodyNode, hd]

/-- C4 witness: for `N\na_1 … a_N` with the empty sample, the original tree
fails with an unresolved-variable error, the collapsed retry fails with an
end-of-input error, and the original error is the one returned. -/
theorem inferTypes_retry_surfaces_original_error_witness :
    inferTypesFromInstances (.format [.loop "i" (.number 1) (.item "N" [])
        [.item "a" [.item "i" []]]]) [""] = .error (.unresolvedVar "N") :=
  (inferTypes_retry_surfaces_original_error
      (.format [.loop "i" (.number 1) (.item "N" []) [.item "a" [.item "i" []]]])
      [""] (.unresolvedVar "N") (by simp)
      (by simp [attemptAll, matchFormat, show splitWs "" = [] from rfl,
            processNode, processNodes, processIters, evalAST,
            Except.map, Except.bind, Except.pure, bind, pure])).2.1
    .eof (by decide)
    (by
      rw [show (collapseLoops (.format [.loop "i" (.number 1) (.item "N" [])
            [.item "a" [.item "i" []]]])).1 = .format [.item "a" []] from rfl]
      simp [attemptAll, matchFormat, show splitWs "" = [] from rfl,
        processNode, processNodes, Except.map, Except.bind, Except.pure, bind, pure])

/-- `generateInput` distributes over statement-list concatenation. -/
theorem generateInputList_append (cfg : GenConfig) (vars : List GVariable)
    (l1 l2 : List ASTNode) :
    generateInputList cfg vars (l1 ++ l2)
      = generateInputList cfg vars l1 ++ generateInputList cfg vars l2 := by
  induction l1 with
  | nil => simp [generateInputList]
  | cons a rest ih => simp [generateInputList, ih]

/-- C8: an Item whose name has no matching variable descriptor never raises:
it yields the explicit unresolved-marker comment line in place of a read
statement, and the surrounding statements generate exactly as without it. -/
theorem generator_unknown_variable_marker (cfg : GenConfig) (vars : List GVariable)
    (n : String) (idxs : List ASTNode) (pre post : List ASTNode)
    (h : vars.find? (fun v => v.name == n) = none) :
    generateItemInput cfg n idxs vars = "// Unknown variable " ++ n
    ∧ generateInput cfg (pre ++ [.item n idxs] ++ post) vars
      = generateInput cfg pre vars
        ++ ["// Unknown variable " ++ n] ++ generateInput cfg post vars := by
  have hitem : generateItemInput cfg n idxs vars = "// Unknown variable " ++ n := by
    simp [generateItemInput, h]
  refine ⟨hitem, ?_⟩
  simp [generateInput, generateInputList_append, generateInputList, generateInputNode, hitem]

/-- C8 witness: an unknown name `Z` between two reads of `N`. -/
theorem generator_unknown_variable_marker_witness :
    generateItemInput cppConfig "Z" [] [⟨"N", .int, 0, []⟩] = "// Unknown variable " ++ "Z"
    ∧ generateInput cppConfig ([.item "N" []] ++ [.item "Z" []] ++ [.item "N" []])
        [⟨"N", .int, 0, []⟩]
      = generateInput cppConfig [.item "N" []] [⟨"N", .int, 0, []⟩]
        ++ ["// Unknown variable " ++ "Z"]
        ++ generateInput cppConfig [.item "N" []] [⟨"N", .int, 0, []⟩] :=
  generator_unknown_variable_marker cppConfig [⟨"N", .int, 0, []⟩] "Z" []
    [.item "N" []] [.item "N" []] rfl

/-- String boolean equality is symmetric. -/
theorem strBeq_comm (a b : String) : (a == b) = (b == a) := by
  by_cases h : a = b
  · subst h
    rfl
  · have h1 : (a == b) = false := by simp [h]
    have h2 : (b == a) = false := by simp [Ne.symm h]
    rw [h1, h2]

/-- The argument-collection fold keeps exactly the first occurrence of every
name not already in the accumulator. -/
theorem addVars_eq_dedupe (l : List GVariable) :
    ∀ acc, addVars acc l
      = acc ++ dedupeByName (l.filter (fun v => !acc.any (fun av => av.name == v.name))) := by
  induction l with
  | nil =>
    intro acc
    simp [addVars, dedupeByName]
  | cons v vs ih =>
    intro acc
    by_cases hA : acc.any (fun av => av.name == v.name)
    · have hstep : addVars acc (v :: vs) = addVars acc vs := by
        simp only [addVars, List.foldl_cons]
        rw [if_pos hA]
      rw [hstep, ih acc, List.filter_cons_of_neg (by simp [hA])]
    · have hstep : addVars acc (v :: vs) = addVars (acc ++ [v]) vs := by
        simp only [addVars, List.foldl_cons]
        rw [if_neg hA]
      rw [hstep, ih (acc ++ [v]),
        List.filter_cons_of_pos (by simp [hA]), dedupeByName, List.filter_filter]
      have hfeq : vs.filter (fun w => !(acc ++ [v]).any (fun av => av.name == w.name))
          = vs.filter (fun w => (w.name != v.name)
              && !acc.any (fun av => av.name == w.name)) := by
        apply List.filter_congr
        intro w _
        simp only [List.any_append, List.any_cons, List.any_nil, Bool.or_false,
          Bool.not_or, bne]
        rw [strBeq_comm v.name w.name]
        exact Bool.and_comm _ _
      rw [hfeq]
      simp

/-- Concatenating variable batches composes the collection fold. -/
theorem addVars_append (acc : List GVariable) (l1 l2 : List GVariable) :
    addVars acc (l1 ++ l2) = addVars (addVars acc l1) l2 := by
  simp [addVars, List.foldl_append]

/-- `allVariables` is name-deduplication (first occurrence wins) of all parts'
variables in order. -/
theorem allVariables_eq_dedupe (parts : List GenPart) :
    allVariables parts = dedupeByName ((parts.map (fun p => p.pvars)).flatten) := by
  have key : ∀ acc, parts.foldl (fun acc p => addVars acc p.pvars) acc
      = addVars acc ((parts.map (fun p => p.pvars)).flatten) := by
    induction parts with
    | nil =>
      intro acc
      simp [addVars]
    | cons p ps ih =>
      intro acc
      simp only [List.foldl_cons, List.map_cons, List.flatten_cons]
      rw [ih (addVars acc p.pvars), ← addVars_append]
  rw [allVariables, key [], addVars_eq_dedupe, List.nil_append]
  have hfun : (fun (v : GVariable) => !(List.any ([] : List GVariable)
        (fun av => av.name == v.name)))
      = (fun (_ : GVariable) => true) := by
    funext v
    rfl
  rw [hfun, List.filter_true]

/-- C7 counterexample: a variable `x` appearing in two query parts with
inconsistent inferred types (`int` vs `string`) is **not** renamed with a
per-part suffix — both branches declare the same name `x`, and the shared
argument list keeps only the first part's descriptor. -/
theorem multi_part_no_rename_counterexample :
    (generateMulti cppConfig ⟨[⟨"Q", .int, 0, []⟩], [.item "Q" []]⟩
        [⟨[⟨"x", .int, 0, []⟩], [.number 1, .item "x" []]⟩,
         ⟨[⟨"x", .string, 0, []⟩], [.number 2, .item "x" []]⟩]).lines
      = ["int Q;", "cin >> Q;", "while(Q--)\x7b", "    int type; cin >> type;",
         "    if (type == 1) \x7b", "        int x;", "        cin >> x;", "    \x7d",
         "    else if (type == 2) \x7b", "        string x;", "        cin >> x;",
         "    \x7d", "\x7d"]
    ∧ (generateMulti cppConfig ⟨[⟨"Q", .int, 0, []⟩], [.item "Q" []]⟩
        [⟨[⟨"x", .int, 0, []⟩], [.number 1, .item "x" []]⟩,
         ⟨[⟨"x", .string, 0, []⟩], [.number 2, .item "x" []]⟩]).formal_arguments
      = "int Q, int x" :=
  ⟨rfl, rfl⟩

/-- A line of any enumerated branch is among the flattened branch blocks. -/
theorem mem_branch_flatten (cfg : GenConfig) (xs : List (Nat × GenPart)) (i : Nat)
    (part : GenPart) (hmem : (i, part) ∈ xs) (line : String)
    (hline : line ∈ branchLines cfg i part) :
    line ∈ (xs.map (fun p => branchLines cfg p.1 p.2)).flatten := by
  induction xs with
  | nil => cases hmem
  | cons x xs ih =>
    simp only [List.map_cons, List.flatten_cons]
    rcases List.mem_cons.mp hmem with h | h
    · subst h
      exact List.mem_append_left _ hline
    · exact List.mem_append_right _ (ih h)

/-- C7 amended: multi-part generation never renames: every query part's
variables are declared (with their own, unchanged names) inside that part's
dispatch branch, regardless of cross-part type or dimensionality consistency,
and the shared formal/actual argument lists are built from all parts'
variables deduplicated by name with the first occurrence winning. -/
theorem multi_part_branch_declarations (cfg : GenConfig) (p0 : GenPart)
    (rest : List GenPart) (i : Nat) (part : GenPart)
    (hmem : (i, part) ∈ List.enumFrom 1 rest) (v : GVariable) (hv : v ∈ part.pvars) :
    (indentStr cfg ++ indentStr cfg ++ generateDeclaration cfg v)
        ∈ (generateMulti cfg p0 rest).lines
    ∧ (generateMulti cfg p0 rest).formal_arguments
      = generateFormalArguments cfg (dedupeByName (((p0 :: rest).map (fun p => p.pvars)).flatten))
    ∧ (generateMulti cfg p0 rest).actual_arguments
      = generateActualArguments cfg (dedupeByName (((p0 :: rest).map (fun p => p.pvars)).flatten)) := by
  refine ⟨?_, ?_, ?_⟩
  · show (indentStr cfg ++ indentStr cfg ++ generateDeclaration cfg v)
      ∈ generateMultiLines cfg p0 rest
    have h1 : generateDeclaration cfg v ∈ part.pvars.map (generateDeclaration cfg) :=
      List.mem_map_of_mem _ hv
    have h2 : generateDeclaration cfg v
        ∈ part.pvars.map (generateDeclaration cfg)
          ++ generateInput cfg part.tree part.pvars :=
      List.mem_append_left _ h1
    have h3 : (indentStr cfg ++ indentStr cfg ++ generateDeclaration cfg v)
        ∈ (part.pvars.map (generateDeclaration cfg)
            ++ generateInput cfg part.tree part.pvars).map
            (fun l => indentStr cfg ++ indentStr cfg ++ l) :=
      List.mem_map_of_mem (fun l => indentStr cfg ++ indentStr cfg ++ l) h2
    have h4 : (indentStr cfg ++ indentStr cfg ++ generateDeclaration cfg v)
        ∈ branchLines cfg i part := by
      simp only [branchLines]
      exact List.mem_cons_of_mem _ (List.mem_append_left _ h3)
    have h6 : (indentStr cfg ++ indentStr cfg ++ generateDeclaration cfg v)
        ∈ ((List.enumFrom 1 rest).map (fun p => branchLines cfg p.1 p.2)).flatten :=
      mem_branch_flatten cfg (List.enumFrom 1 rest) i part hmem _ h4
    simp only [generateMultiLines]
    exact List.mem_append_left _ (List.mem_append_right _ h6)
  · show generateFormalArguments cfg (allVariables (p0 :: rest)) = _
    rw [allVariables_eq_dedupe]
  · show generateActualArguments cfg (allVariables (p0 :: rest)) = _
    rw [allVariables_eq_dedupe]

/-- C7 witness: the second query part's `string x` declaration appears (name
unchanged) inside its own branch, and the argument lists use the deduplicated
variable set. -/
theorem multi_part_branch_declarations_witness :
    (indentStr cppConfig ++ indentStr cppConfig
        ++ generateDeclaration cppConfig ⟨"x", .string, 0, []⟩)
      ∈ (generateMulti cppConfig ⟨[⟨"Q", .int, 0, []⟩], [.item "Q" []]⟩
          [⟨[⟨"x", .int, 0, []⟩], [.number 1, .item "x" []]⟩,
           ⟨[⟨"x", .string, 0, []⟩], [.number 2, .item "x" []]⟩]).lines
    ∧ (generateMulti cppConfig ⟨[⟨"Q", .int, 0, []⟩], [.item "Q" []]⟩
        [⟨[⟨"x", .int, 0, []⟩], [.number 1, .item "x" []]⟩,
         ⟨[⟨"x", .string, 0, []⟩], [.number 2, .item "x" []]⟩]).formal_arguments
      = generateFormalArguments cppConfig (dedupeByName
          ((([⟨[⟨"Q", .int, 0, []⟩], [.item "Q" []]⟩,
              ⟨[⟨"x", .int, 0, []⟩], [.number 1, .item "x" []]⟩,
              ⟨[⟨"x", .string, 0, []⟩], [.number 2, .item "x" []]⟩] : List GenPart).map
              (fun p => p.pvars)).flatten))
    ∧ (generateMulti cppConfig ⟨[⟨"Q", .int, 0, []⟩], [.item "Q" []]⟩
        [⟨[⟨"x", .int, 0, []⟩], [.number 1, .item "x" []]⟩,
         ⟨[⟨"x", .string, 0, []⟩], [.number 2, .item "x" []]⟩]).actual_arguments
      = generateActualArguments cppConfig (dedupeByName
          ((([⟨[⟨"Q", .int, 0, []⟩], [.item "Q" []]⟩,
              ⟨[⟨"x", .int, 0, []⟩], [.number 1, .item "x" []]⟩,
              ⟨[⟨"x", .string, 0, []⟩], [.number 2, .item "x" []]⟩] : List GenPart).map
              (fun p => p.pvars)).flatten)) :=
  multi_part_branch_declarations cppConfig ⟨[⟨"Q", .int, 0, []⟩], [.item "Q" []]⟩
    [⟨[⟨"x", .int, 0, []⟩], [.number 1, .item "x" []]⟩,
     ⟨[⟨"x", .string, 0, []⟩], [.number 2, .item "x" []]⟩]
    2 ⟨[⟨"x", .string, 0, []⟩], [.number 2, .item "x" []]⟩
    (List.mem_cons_of_mem _ (List.mem_cons_self _ _))
    ⟨"x", .string, 0, []⟩ (List.mem_cons_self _ _)

end AtcoderGui
